import Mathlib

/-!
# query-bench: duration parsing, template loading and the per-round worker walk

A shallow embedding of `query-bench.go`.  Go strings are lists of characters,
`time.Duration` is an `Int` kept in the signed 64-bit range by explicit
wrapping, `(value, error)` results are pairs whose second component is an
`Option`, and the effects of a worker (executor calls, log lines, sleeps) are
the list of events it produces.
-/

namespace QueryBench

/-- Go `string`, as the list of its characters.  Every byte the parsers below
inspect is ASCII, so on valid UTF-8 the byte-wise Go code and this
character-wise model agree. -/
abbrev GoString := List Char

/-! ## `strings` helpers -/

/-- Go's `strings.HasSuffix`:
`len(s) >= len(suffix) && s[len(s)-len(suffix):] == suffix`. -/
def HasSuffix (s suffix : GoString) : Bool :=
  decide (suffix.length ≤ s.length) && (s.drop (s.length - suffix.length) == suffix)

/-- Go's `strings.TrimSuffix`: `s[:len(s)-len(suffix)]` when `s` has the suffix. -/
def TrimSuffix (s suffix : GoString) : GoString :=
  if HasSuffix s suffix then s.take (s.length - suffix.length) else s

/-! ## 64-bit integers -/

/-- Two's-complement wrap of an integer into the `int64` range. -/
def wrapInt64 (x : Int) : Int := (x + 2 ^ 63) % 2 ^ 64 - 2 ^ 63

/-- Least `int64`. -/
def minInt64 : Int := -(2 ^ 63)

/-- Greatest `int64`. -/
def maxInt64 : Int := 2 ^ 63 - 1

/-! ## `time` constants (nanoseconds) -/

def Nanosecond : Nat := 1
def Microsecond : Nat := 1000 * Nanosecond
def Millisecond : Nat := 1000 * Microsecond
def Second : Nat := 1000 * Millisecond
def Minute : Nat := 60 * Second
def Hour : Nat := 60 * Minute

/-! ## binary64 arithmetic on non-negative values

`time.ParseDuration` (fractions) and `Duration.Seconds` compute in `float64`.
The values that occur are non-negative (signs are carried separately), so a
value is a finite `m * 2 ^ e` or `+Inf`, and every operation is the exact
rational result rounded to nearest, ties to even. -/

/-- A non-negative binary64 value: `fin m e` is `m * 2 ^ e`. -/
inductive F64 where
  | fin (m : Nat) (e : Int)
  | inf
  deriving DecidableEq

/-- The integer nearest to `p / q`, ties to the even one. -/
def roundHalfEven (p q : Nat) : Nat :=
  let f := p / q
  let r := p % q
  if 2 * r < q then f
  else if q < 2 * r then f + 1
  else if f % 2 = 0 then f else f + 1

/-- The fraction `(p / q) / 2 ^ e` as numerator and denominator. -/
def shiftFrac (p q : Nat) (e : Int) : Nat × Nat :=
  if 0 ≤ e then (p, q * 2 ^ e.toNat) else (p * 2 ^ (-e).toNat, q)

/-- Number of binary digits of `n`, by halving at most `fuel` times. -/
def bitLength : Nat → Nat → Nat
  | 0, _ => 0
  | fuel + 1, n => if n = 0 then 0 else bitLength fuel (n / 2) + 1

/-- For `n > 0`, the `k` with `2 ^ k ≤ n < 2 ^ (k + 1)`. -/
def ilog2 (n : Nat) : Nat := bitLength n n - 1

/-- For `p, q > 0`, the integer `E` with `2 ^ E ≤ p / q < 2 ^ (E + 1)`. -/
def floorLog2 (p q : Nat) : Int :=
  let d : Int := (ilog2 p : Int) - (ilog2 q : Int)
  if (shiftFrac p q d).1 < (shiftFrac p q d).2 then d - 1 else d

/-- Round the rational `p / q` (`q > 0`) to binary64: 53 significant bits,
least exponent `-1074` (subnormals), overflow to `+Inf` from `2 ^ 1024`
(the rounded significand `m` is at most `2 ^ 53`, so `m * 2 ^ e` reaches
`2 ^ 1024` exactly when `e > 971`, or `e = 971` and `m = 2 ^ 53`). -/
def roundF64 (p q : Nat) : F64 :=
  if p = 0 then .fin 0 0
  else
    let e := max (floorLog2 p q - 52) (-1074)
    let m := roundHalfEven (shiftFrac p q e).1 (shiftFrac p q e).2
    if 971 < e ∨ (e = 971 ∧ 2 ^ 53 ≤ m) then .inf else .fin m e

namespace F64

/-- Numerator of a finite value written as a fraction. -/
def num : F64 → Nat
  | fin m e => (shiftFrac m 1 (-e)).1
  | inf => 0

/-- Denominator of a finite value written as a fraction. -/
def den : F64 → Nat
  | fin m e => (shiftFrac m 1 (-e)).2
  | inf => 1

/-- Conversion `float64(n)` of an unsigned integer. -/
def ofNat (n : Nat) : F64 := roundF64 n 1

/-- Product `x * y` (the operands that occur are never `0 * Inf`). -/
def mul : F64 → F64 → F64
  | inf, _ => inf
  | _, inf => inf
  | x, y => roundF64 (x.num * y.num) (x.den * y.den)

/-- Quotient `x / y` for a finite `x` and a non-zero `y`. -/
def div : F64 → F64 → F64
  | inf, _ => inf
  | _, inf => fin 0 0
  | x, y => roundF64 (x.num * y.den) (x.den * y.num)

/-- Sum `x + y`. -/
def add : F64 → F64 → F64
  | inf, _ => inf
  | _, inf => inf
  | x, y => roundF64 (x.num * y.den + y.num * x.den) (x.den * y.den)

/-- Conversion `uint64(x)` of a finite value below `2 ^ 64`: truncation. -/
def toUint64 (x : F64) : Nat := x.num / x.den

end F64

/-! ## `time.ParseDuration` -/

/-- The errors of `time.ParseDuration`, by message:
`time: invalid duration <orig>`, `time: missing unit in duration <orig>`,
`time: unknown unit <u> in duration <orig>`. -/
inductive DurationError where
  | invalid (orig : GoString)
  | missingUnit (orig : GoString)
  | unknownUnit (u orig : GoString)
  deriving DecidableEq

/-- The table `unitMap` of package `time`. -/
def unitMap (u : GoString) : Option Nat :=
  if u = "ns".toList then some Nanosecond
  else if u = "us".toList then some Microsecond
  else if u = "µs".toList then some Microsecond
  else if u = "μs".toList then some Microsecond
  else if u = "ms".toList then some Millisecond
  else if u = "s".toList then some Second
  else if u = "m".toList then some Minute
  else if u = "h".toList then some Hour
  else none

/-- The loop of `leadingInt`: consume leading `[0-9]*`, accumulating in `x`;
`none` is `errLeadingInt` (the value passed `1 << 63`). -/
def leadingIntLoop : GoString → Nat → Option (Nat × GoString)
  | [], x => some (x, [])
  | c :: s, x =>
    if c < '0' || c > '9' then some (x, c :: s)
    else if x > 2 ^ 63 / 10 then none
    else if x * 10 + c.toNat - '0'.toNat > 2 ^ 63 then none
    else leadingIntLoop s (x * 10 + c.toNat - '0'.toNat)

/-- The function `leadingInt` of package `time`. -/
def leadingInt (s : GoString) : Option (Nat × GoString) := leadingIntLoop s 0

/-- The loop of `leadingFraction`: consume leading `[0-9]*`; once the value
would pass `1 << 63` the remaining digits are skipped. -/
def leadingFractionLoop : GoString → Nat → F64 → Bool → Nat × F64 × GoString
  | [], x, scale, _ => (x, scale, [])
  | c :: s, x, scale, overflow =>
    if c < '0' || c > '9' then (x, scale, c :: s)
    else if overflow then leadingFractionLoop s x scale overflow
    else if x > (2 ^ 63 - 1) / 10 then leadingFractionLoop s x scale true
    else if x * 10 + c.toNat - '0'.toNat > 2 ^ 63 then leadingFractionLoop s x scale true
    else leadingFractionLoop s (x * 10 + c.toNat - '0'.toNat) (F64.mul scale (F64.ofNat 10)) false

/-- The function `leadingFraction` of package `time`: value, scale and rest. -/
def leadingFraction (s : GoString) : Nat × F64 × GoString :=
  leadingFractionLoop s 0 (F64.ofNat 1) false

/-- The test `c == '.' || '0' <= c && c <= '9'`. -/
def isNumberChar (c : Char) : Bool := c == '.' || ('0' ≤ c && c ≤ '9')

/-- The step `Consume (\.[0-9]*)?` of `time.ParseDuration` on the text `s1`
left by `leadingInt`: the fraction `f`, its `scale`, the text left, and
`post` (whether a digit followed the period). -/
def fractionPart (s1 : GoString) : Nat × F64 × GoString × Bool :=
  match s1 with
  | '.' :: t =>
    ((leadingFraction t).1, (leadingFraction t).2.1, (leadingFraction t).2.2,
      t.length != (leadingFraction t).2.2.length)
  | _ => (0, F64.ofNat 1, s1, false)

/-- The step `if f > 0 { v += uint64(float64(f) * (float64(unit) / scale)) }`
in `uint64`. -/
def addFraction (v f unit : Nat) (scale : F64) : Nat :=
  if f > 0 then
    (v + (F64.mul (F64.ofNat f) (F64.div (F64.ofNat unit) scale)).toUint64) % 2 ^ 64
  else v

/-- One round of the loop `for s != ""` of `time.ParseDuration` on the
non-empty text `s`, with the `uint64` accumulator `d`: the new accumulator
and the text left. -/
def durationTerm (orig s : GoString) (d : Nat) : Except DurationError (Nat × GoString) :=
  -- The next character must be [0-9.]
  if !(s.head?.map isNumberChar).getD false then .error (.invalid orig)
  else
    -- Consume [0-9]*
    match leadingInt s with
    | none => .error (.invalid orig)
    | some (v, s1) =>
      let pre := s.length != s1.length
      -- Consume (\.[0-9]*)?
      let f := (fractionPart s1).1
      let scale := (fractionPart s1).2.1
      let s2 := (fractionPart s1).2.2.1
      let post := (fractionPart s1).2.2.2
      if !pre && !post then .error (.invalid orig)
      else
        -- Consume unit.
        let u := s2.takeWhile (fun c => !isNumberChar c)
        let s3 := s2.dropWhile (fun c => !isNumberChar c)
        if u.length = 0 then .error (.missingUnit orig)
        else
          match unitMap u with
          | none => .error (.unknownUnit u orig)
          | some unit =>
            if v > 2 ^ 63 / unit then .error (.invalid orig)
            else
              let v2 := addFraction (v * unit) f unit scale
              if f > 0 ∧ v2 > 2 ^ 63 then .error (.invalid orig)
              else
                let d1 := (d + v2) % 2 ^ 64
                if d1 > 2 ^ 63 then .error (.invalid orig)
                else .ok (d1, s3)

/-- The loop `for s != ""` of `time.ParseDuration`.  Each round consumes at
least the unit, so the fuel `len(s)` given by `ParseDuration` is never
exhausted. -/
def durationLoop (orig : GoString) : Nat → GoString → Nat → Except DurationError Nat
  | _, [], d => .ok d
  | 0, _ :: _, _ => .error (.invalid orig)
  | fuel + 1, c :: s, d =>
    match durationTerm orig (c :: s) d with
    | .error e => .error e
    | .ok (d1, s3) => durationLoop orig fuel s3 d1

/-- The part of `time.ParseDuration` after the sign was consumed. -/
def parseUnsigned (orig : GoString) (neg : Bool) (s : GoString) : Except DurationError Int :=
  if s = "0".toList then .ok 0
  else if s = [] then .error (.invalid orig)
  else
    match durationLoop orig s.length s 0 with
    | .error e => .error e
    | .ok d =>
      if neg then .ok (wrapInt64 (-(wrapInt64 d)))
      else if d > 2 ^ 63 - 1 then .error (.invalid orig)
      else .ok (wrapInt64 d)

/-- Go's `time.ParseDuration` as an `Except` value. -/
def parseDurationExcept (s : GoString) : Except DurationError Int :=
  match s with
  | '-' :: t => parseUnsigned s true t
  | '+' :: t => parseUnsigned s false t
  | _ => parseUnsigned s false s

/-- Go's `time.ParseDuration`: the Go result pair `(Duration, error)`; every
failing return of the function is `return 0, errors.New(...)`. -/
def ParseDuration (s : GoString) : Int × Option DurationError :=
  match parseDurationExcept s with
  | .ok d => (d, none)
  | .error e => (0, some e)

/-! ## `parseDuration` (query-bench.go, lines 91-101) -/

/-- The function `parseDuration`: a trailing `d` is replaced by `h` and the parsed span
is multiplied by 24 in `int64`. -/
def parseDuration (s : GoString) : Int × Option DurationError :=
  if HasSuffix s "d".toList then
    let days := TrimSuffix s "d".toList
    match ParseDuration (days ++ "h".toList) with
    | (_, some err) => (0, some err)
    | (n, none) => (wrapInt64 (n * 24), none)
  else ParseDuration s

/-! ## Decimal formatting (`%d`, and the numerals of the range flag) -/

/-- The decimal digit `d < 10` as a character. -/
def digitChar (d : Nat) : Char := Char.ofNat ('0'.toNat + d)

/-- Decimal digits of `n`, most significant first, pushed in front of `acc`. -/
def formatNatLoop : Nat → Nat → GoString → GoString
  | 0, _, acc => acc
  | fuel + 1, n, acc =>
    if n < 10 then digitChar n :: acc
    else formatNatLoop fuel (n / 10) (digitChar (n % 10) :: acc)

/-- The decimal numeral of a natural number (no leading zeros). -/
def formatNat (n : Nat) : GoString := formatNatLoop (n + 1) n []

/-- The decimal numeral of an integer, as `%d` and `strconv.Itoa` write it. -/
def formatInt (n : Int) : GoString :=
  if n < 0 then '-' :: formatNat n.natAbs else formatNat n.natAbs

/-! ## `loadQueries` (query-bench.go, lines 103-119) -/

/-- Text of a Go `error` value, as `%v` prints it. -/
abbrev GoError := GoString

/-- Go's `unicode.IsSpace`: the Latin-1 cases and the `White_Space` table. -/
def isSpace (c : Char) : Bool :=
  let r := c.toNat
  if r ≤ 0xFF then
    r == 0x09 || r == 0x0A || r == 0x0B || r == 0x0C || r == 0x0D || r == 0x20 ||
      r == 0x85 || r == 0xA0
  else
    r == 0x1680 || (0x2000 ≤ r && r ≤ 0x200A) || r == 0x2028 || r == 0x2029 ||
      r == 0x202F || r == 0x205F || r == 0x3000

/-- Go's `strings.TrimSpace`: all leading and trailing white space removed. -/
def TrimSpace (s : GoString) : GoString :=
  ((s.dropWhile isSpace).reverse.dropWhile isSpace).reverse

/-- A `bufio.Scanner` over the opened file, by what it does: the tokens that
successive `Scan()` calls yield before `Scan()` returns false, and the value
of `Err()` afterwards (`none` at a clean end of input). -/
structure Scanner where
  lines : List GoString
  err : Option GoError

/-- The loop `for scanner.Scan() { ... }` with the slice `queries`. -/
def scanLoop : List GoString → List GoString → List GoString
  | [], queries => queries
  | text :: rest, queries =>
    let line := TrimSpace text
    if line ≠ [] then scanLoop rest (queries ++ [line])
    else scanLoop rest queries

/-- The function `loadQueries`; the argument is the outcome of `os.Open(path)`. -/
def loadQueries (opened : Except GoError Scanner) : List GoString × Option GoError :=
  match opened with
  | .error err => ([], some err)
  | .ok scanner => (scanLoop scanner.lines [], scanner.err)

/-! ## Substitution (query-bench.go, line 76) -/

/-- Go's `strings.Index`: index of the first instance of `substr`, `none` for `-1`. -/
def Index : GoString → GoString → Option Nat
  | [], substr => if substr = [] then some 0 else none
  | c :: s, substr =>
    if substr.isPrefixOf (c :: s) then some 0
    else (Index s substr).map (· + 1)

/-- The loop of `strings.Count` for `len(substr) > 0`: non-overlapping
instances, found left to right. -/
def countLoop (substr : GoString) : Nat → GoString → Nat
  | 0, _ => 0
  | fuel + 1, s =>
    match Index s substr with
    | none => 0
    | some i => countLoop substr fuel (s.drop (i + substr.length)) + 1

/-- Go's `strings.Count` for a non-empty `substr`. -/
def Count (s substr : GoString) : Nat := countLoop substr (s.length + 1) s

/-- The loop `for i := 0; i < n; i++` of `strings.Replace` for
`len(old) > 0`, on the text `s[start:]`. -/
def replaceLoop (old new : GoString) : Nat → GoString → GoString
  | 0, s => s
  | n + 1, s =>
    match Index s old with
    | none => s
    | some j => s.take j ++ new ++ replaceLoop old new n (s.drop (j + old.length))

/-- Go's `strings.Replace(s, old, new, n)` for a non-empty `old`. -/
def Replace (s old new : GoString) (n : Int) : GoString :=
  if old = new ∨ n = 0 then s
  else if Count s old = 0 then s
  else if n < 0 ∨ (Count s old : Int) < n then replaceLoop old new (Count s old) s
  else replaceLoop old new n.toNat s

/-- Go's `strings.ReplaceAll(s, old, new)` is `Replace(s, old, new, -1)`. -/
def ReplaceAll (s old new : GoString) : GoString := Replace s old new (-1)

/-- The placeholder filter, written `instance="host-0"`. -/
def placeholder : GoString := "instance=\"host-0\"".toList

/-- Go's `fmt.Sprintf` with the format `instance="%s"`. -/
def instanceFilter (inst : GoString) : GoString :=
  "instance=\"".toList ++ inst ++ "\"".toList

/-- The expression that builds `qWithInst` on line 76. -/
def substitute (q inst : GoString) : GoString :=
  ReplaceAll q placeholder (instanceFilter inst)

/-! ## The step parameter of `queryPrometheusRange` (line 166) -/

/-- Go's `Duration.Seconds`: `float64(d / Second) + float64(d % Second) / 1e9`,
as sign and magnitude (the quotient and the remainder of Go's truncated
division both carry the sign of `d`). -/
def Seconds (d : Int) : Bool × F64 :=
  (decide (d < 0),
    F64.add (F64.ofNat (Int.tdiv d Second).natAbs)
      (F64.div (F64.ofNat (Int.tmod d Second).natAbs) (F64.ofNat 1000000000)))

/-- Go's `fmt.Sprintf` with the format `%.0f` on a finite value: the nearest integer, ties to the
even one, with the sign kept. -/
def formatFloat0 (x : Bool × F64) : GoString :=
  (if x.1 then ['-'] else []) ++ formatNat (roundHalfEven x.2.num x.2.den)

/-- The value set for the query parameter `step`. -/
def stepParam (step : Int) : GoString := formatFloat0 (Seconds step)

/-! ## The round and its workers (query-bench.go, lines 64-88) -/

/-- What `main` holds when the scheduling loop starts. -/
structure Config where
  promURL : GoString
  authHeader : GoString
  step : Int
  sleep : Int
  numThreads : Int
  instances : List GoString
  duration : Int
  queries : List GoString

/-- The arguments of one call of `queryPrometheusRange`; instants are
nanoseconds since the epoch. -/
structure Call where
  baseURL : GoString
  query : GoString
  start : Int
  stop : Int
  step : Int
  authHeader : GoString
  deriving DecidableEq

/-- An effect of a worker. -/
inductive Event where
  | call (c : Call)
  | log (line : GoString)
  | sleep (d : Int)
  deriving DecidableEq

/-- The line written to the error stream after a failed query:
`"Instance %d query failed: %v\n"`. -/
def failureLine (i : Nat) (err : GoError) : GoString :=
  "Instance ".toList ++ formatInt i ++ " query failed: ".toList ++ err ++ "\n".toList

/-- The inner loop `for _, q := range queries` for the instance at index `i`;
`exec j` is what the executor returns for the query at index `j`. -/
def queriesLoop (cfg : Config) (start stop : Int) (i : Nat) (inst : GoString)
    (exec : Nat → Option GoError) : List GoString → Nat → List Event
  | [], _ => []
  | q :: rest, j =>
    let qWithInst := substitute q inst
    let c : Call := ⟨cfg.promURL, qWithInst, start, stop, cfg.step, cfg.authHeader⟩
    match exec j with
    | some err =>
      .call c :: .log (failureLine i err) :: queriesLoop cfg start stop i inst exec rest (j + 1)
    | none => .call c :: queriesLoop cfg start stop i inst exec rest (j + 1)

/-- The outer loop `for i := 0; i < len(instances); i++`, from index `i` on. -/
def instancesLoop (cfg : Config) (start stop : Int) (exec : Nat → Nat → Option GoError) :
    List GoString → Nat → List Event
  | [], _ => []
  | inst :: rest, i =>
    queriesLoop cfg start stop i inst (exec i) cfg.queries 0 ++
      .sleep cfg.sleep :: instancesLoop cfg start stop exec rest (i + 1)

/-- The body of one goroutine: its events in order.  `exec i j` is the
executor's result for instance index `i` and query index `j`. -/
def worker (cfg : Config) (start stop : Int) (exec : Nat → Nat → Option GoError) :
    List Event :=
  instancesLoop cfg start stop exec cfg.instances 0

/-- The expression `end.Add(-duration)`: the negation is an `int64` negation. -/
def windowStart (stop duration : Int) : Int := stop + wrapInt64 (-duration)

/-- One round at tick time `now`: the event sequence of each of the workers
`0 .. numThreads - 1`; `exec w` is the executor as worker `w` meets it. -/
def round (cfg : Config) (now : Int) (exec : Nat → Nat → Nat → Option GoError) :
    List (List Event) :=
  (List.range cfg.numThreads.toNat).map
    (fun w => worker cfg (windowStart now cfg.duration) now (exec w))

/-- The executor calls among a worker's events. -/
def calls : List Event → List Call
  | [] => []
  | .call c :: rest => c :: calls rest
  | _ :: rest => calls rest

/-- The lines logged among a worker's events. -/
def logs : List Event → List GoString
  | [] => []
  | .log l :: rest => l :: logs rest
  | _ :: rest => logs rest

/-! ## Start-up of `main` (query-bench.go, lines 46-62) -/

/-- The flags `main` reads before the loop. -/
structure Flags where
  promURL : GoString
  rangeStr : GoString
  authHeader : GoString
  step : Int
  numThreads : Int
  sleep : Int

/-- The start-up of `main`: `labels` is the result of `getAllLabelValues`,
`opened` the outcome of opening the query file.  `.error 1` is `os.Exit(1)`. -/
def startup (flags : Flags) (labels : List GoString × Option GoError)
    (opened : Except GoError Scanner) : Except Nat Config :=
  match labels with
  | (_, some _) => .error 1
  | (instances, none) =>
    match parseDuration flags.rangeStr with
    | (_, some _) => .error 1
    | (duration, none) =>
      match loadQueries opened with
      | (_, some _) => .error 1
      | (queries, none) =>
        .ok ⟨flags.promURL, flags.authHeader, flags.step, flags.sleep, flags.numThreads,
          instances, duration, queries⟩

/-! ## Reference notions the claims are stated with -/

/-- Value of a sequence of decimal digits read most significant first,
continuing from the value `x`. -/
def digitsValue (x : Nat) (ks : List Nat) : Nat := ks.foldl (fun a k => a * 10 + k) x

/-- The text `parseDuration` hands to `time.ParseDuration`: the expression
itself, or, when it ends in `d`, the expression with that `d` replaced by `h`. -/
def primitiveInput (s : GoString) : GoString :=
  if HasSuffix s "d".toList then TrimSuffix s "d".toList ++ "h".toList else s

/-- The call for one (entity, template) pair with the window `(start, stop)`. -/
def pairCall (cfg : Config) (start stop : Int) (inst q : GoString) : Call :=
  ⟨cfg.promURL, substitute q inst, start, stop, cfg.step, cfg.authHeader⟩

/-- The cross product in entity-outer, template-inner order, as calls that
all carry the window `(start, stop)`. -/
def crossProductCalls (cfg : Config) (start stop : Int) : List Call :=
  cfg.instances.flatMap (fun inst => cfg.queries.map (fun q => pairCall cfg start stop inst q))

/-- The failure lines for `e` entities and `t` templates under the executor
results `exec`: entity-outer, template-inner, one line per failed pair,
numbered with the entity's index. -/
def failureLines (e t : Nat) (exec : Nat → Nat → Option GoError) : List GoString :=
  (List.range e).flatMap
    (fun i => (List.range t).filterMap (fun j => (exec i j).map (failureLine i)))

/-- The end-to-end scenario: base address `http://x`, one worker, entities
`a` and `b`, the single template `{instance="host-0"}`, a range of one hour. -/
def scenario : Config :=
  { promURL := "http://x".toList
    authHeader := []
    step := 300000000000
    sleep := 1000000
    numThreads := 1
    instances := ["a".toList, "b".toList]
    duration := 3600000000000
    queries := ["\x7binstance=\"host-0\"\x7d".toList] }

/-- The scenario with the range flag `-9223372036854775808ns`, the least
span `time.ParseDuration` returns. -/
def leastSpanScenario : Config :=
  { scenario with duration := (parseDuration "-9223372036854775808ns".toList).1 }

/-- Two workers, one entity, one template. -/
def twoWorkers : Config :=
  { scenario with
    numThreads := 2
    instances := ["a".toList]
    queries := ["up".toList] }

/-! ## Decimal numerals and `leadingInt` -/

theorem digitChar_not_outside (k : Nat) (hk : k < 10) :
    (digitChar k < '0' || digitChar k > '9') = false := by
  interval_cases k <;> decide

theorem digitChar_toNat (k : Nat) (hk : k < 10) :
    (digitChar k).toNat = '0'.toNat + k := by
  interval_cases k <;> decide

theorem digitChar_isNumberChar (k : Nat) (hk : k < 10) : isNumberChar (digitChar k) = true := by
  interval_cases k <;> decide

theorem digitChar_ne_sign (k : Nat) (hk : k < 10) :
    digitChar k ≠ '-' ∧ digitChar k ≠ '+' ∧ digitChar k ≠ '.' := by
  interval_cases k <;> decide

theorem le_digitsValue (ks : List Nat) (x : Nat) : x ≤ digitsValue x ks := by
  induction ks generalizing x with
  | nil => exact Nat.le_refl x
  | cons k rest ih =>
    have := ih (x * 10 + k)
    simp only [digitsValue, List.foldl_cons] at this ⊢
    omega

theorem formatNatLoop_spec (fuel n : Nat) (acc : GoString) (h : n < fuel) :
    ∃ ks : List Nat, ks ≠ [] ∧ (∀ k ∈ ks, k < 10) ∧ digitsValue 0 ks = n ∧
      formatNatLoop fuel n acc = ks.map digitChar ++ acc := by
  induction fuel generalizing n acc with
  | zero => omega
  | succ fuel ih =>
    unfold formatNatLoop
    by_cases h10 : n < 10
    · refine ⟨[n], by simp, ?_, ?_, ?_⟩
      · intro k hk
        simp at hk
        omega
      · simp [digitsValue]
      · simp [h10]
    · obtain ⟨ks, hne, hlt, hval, heq⟩ := ih (n / 10) (digitChar (n % 10) :: acc) (by omega)
      refine ⟨ks ++ [n % 10], by simp, ?_, ?_, ?_⟩
      · intro k hk
        rcases List.mem_append.mp hk with hk | hk
        · exact hlt k hk
        · simp at hk
          omega
      · unfold digitsValue at hval ⊢
        rw [List.foldl_append, hval]
        simp only [List.foldl_cons, List.foldl_nil]
        omega
      · simp [h10, heq]

theorem formatNat_spec (n : Nat) :
    ∃ ks : List Nat, ks ≠ [] ∧ (∀ k ∈ ks, k < 10) ∧ digitsValue 0 ks = n ∧
      formatNat n = ks.map digitChar := by
  obtain ⟨ks, hne, hlt, hval, heq⟩ := formatNatLoop_spec (n + 1) n [] (by omega)
  exact ⟨ks, hne, hlt, hval, by simpa [formatNat] using heq⟩

theorem leadingIntLoop_digits (ks : List Nat) (hks : ∀ k ∈ ks, k < 10) (rest : GoString)
    (hrest : ∀ c r, rest = c :: r → (c < '0' || c > '9') = true) (x : Nat)
    (hx : x ≤ 2 ^ 63) :
    leadingIntLoop (ks.map digitChar ++ rest) x
      = if digitsValue x ks ≤ 2 ^ 63 then some (digitsValue x ks, rest) else none := by
  induction ks generalizing x with
  | nil =>
    simp only [List.map_nil, List.nil_append, digitsValue, List.foldl_nil, hx, if_true]
    cases rest with
    | nil => rfl
    | cons c r =>
      unfold leadingIntLoop
      rw [hrest c r rfl]
      rfl
  | cons k rest' ih =>
    have hk : k < 10 := hks k (by simp)
    have hrest' : ∀ k ∈ rest', k < 10 := fun j hj => hks j (by simp [hj])
    have hmono := le_digitsValue rest' (x * 10 + k)
    have hstep : digitsValue x (k :: rest') = digitsValue (x * 10 + k) rest' := by
      simp [digitsValue]
    have hsub : x * 10 + (digitChar k).toNat - '0'.toNat = x * 10 + k := by
      rw [digitChar_toNat k hk]
      omega
    simp only [List.map_cons, List.cons_append]
    unfold leadingIntLoop
    rw [digitChar_not_outside k hk, hstep, hsub]
    simp only [Bool.false_eq_true, if_false]
    norm_num at hx hmono ⊢
    by_cases h1 : 922337203685477580 < x
    · rw [if_pos h1, if_neg (by omega)]
    · rw [if_neg h1]
      by_cases h2 : 9223372036854775808 < x * 10 + k
      · rw [if_pos h2, if_neg (by omega)]
      · rw [if_neg h2]
        have := ih hrest' (x * 10 + k) (by norm_num; omega)
        norm_num at this
        exact this

/-! ## `time.ParseDuration` on a whole number of hours -/

theorem durationTerm_hours (orig : GoString) (ks : List Nat) (hne : ks ≠ [])
    (hks : ∀ k ∈ ks, k < 10) :
    durationTerm orig (ks.map digitChar ++ ['h']) 0
      = if digitsValue 0 ks ≤ 2562047 then .ok (digitsValue 0 ks * Hour, [])
        else .error (.invalid orig) := by
  have hint := leadingIntLoop_digits ks hks ['h']
    (by intro c r h; simp at h; rw [← h.1]; decide) 0 (by norm_num)
  cases ks with
  | nil => exact absurd rfl hne
  | cons k rest =>
    have hk : k < 10 := hks k (by simp)
    simp only [List.map_cons, List.cons_append] at hint ⊢
    unfold durationTerm
    simp only [List.head?_cons, Option.map_some', Option.getD_some,
      digitChar_isNumberChar k hk, Bool.not_true, Bool.false_eq_true, if_false]
    unfold leadingInt
    rw [hint]
    by_cases hbig : digitsValue 0 (k :: rest) ≤ 2 ^ 63
    · rw [if_pos hbig]
      have hu : unitMap ['h'] = some Hour := by decide
      have hh : isNumberChar 'h' = false := by decide
      have hfr : fractionPart ['h'] = (0, F64.ofNat 1, ['h'], false) := rfl
      simp only [hfr, addFraction, List.length_cons, List.length_append, List.length_map,
        List.length_nil, List.takeWhile, List.dropWhile, hh, Bool.not_false, hu]
      have hHour : Hour = 3600000000000 := by decide
      rw [hHour]
      have hq : (2 : Nat) ^ 63 / 3600000000000 = 2562047 := by norm_num
      rw [hq]
      by_cases hle : digitsValue 0 (k :: rest) ≤ 2562047
      · have h1 : ¬ digitsValue 0 (k :: rest) > 2562047 := by omega
        have h5 : digitsValue 0 (k :: rest) * 3600000000000 % 18446744073709551616
            = digitsValue 0 (k :: rest) * 3600000000000 := by
          apply Nat.mod_eq_of_lt
          omega
        simp [h1, hle, h5]
        omega
      · have h1 : digitsValue 0 (k :: rest) > 2562047 := by omega
        simp [h1, hle]
    · rw [if_neg hbig]
      have hle : ¬ digitsValue 0 (k :: rest) ≤ 2562047 := by
        intro h
        apply hbig
        have : (2562047 : Nat) ≤ 2 ^ 63 := by norm_num
        omega
      simp [hle]

theorem durationLoop_hours (orig : GoString) (fuel : Nat) (ks : List Nat) (hne : ks ≠ [])
    (hks : ∀ k ∈ ks, k < 10) :
    durationLoop orig (fuel + 1) (ks.map digitChar ++ ['h']) 0
      = if digitsValue 0 ks ≤ 2562047 then .ok (digitsValue 0 ks * Hour)
        else .error (.invalid orig) := by
  have hterm := durationTerm_hours orig ks hne hks
  cases ks with
  | nil => exact absurd rfl hne
  | cons k rest =>
    simp only [List.map_cons, List.cons_append] at hterm ⊢
    unfold durationLoop
    rw [hterm]
    by_cases hle : digitsValue 0 (k :: rest) ≤ 2562047
    · simp only [hle, if_true]
      cases fuel <;> rfl
    · simp only [hle, if_false]

/-! ## The fuel of `durationLoop` is never exhausted -/

theorem leadingIntLoop_length (s : GoString) (x v : Nat) (r : GoString)
    (h : leadingIntLoop s x = some (v, r)) : r.length ≤ s.length := by
  induction s generalizing x with
  | nil =>
    simp [leadingIntLoop] at h
    rw [← h.2]
  | cons c rest ih =>
    unfold leadingIntLoop at h
    split at h
    · simp at h
      rw [← h.2]
    · split at h
      · exact absurd h (by simp)
      · split at h
        · exact absurd h (by simp)
        · have := ih _ h
          simp only [List.length_cons]
          omega

theorem leadingFractionLoop_length (s : GoString) (x : Nat) (scale : F64) (o : Bool) :
    (leadingFractionLoop s x scale o).2.2.length ≤ s.length := by
  induction s generalizing x scale o with
  | nil => simp [leadingFractionLoop]
  | cons c rest ih =>
    unfold leadingFractionLoop
    split
    · simp
    · split
      · have := ih x scale o
        simp only [List.length_cons]
        omega
      · split
        · have := ih x scale true
          simp only [List.length_cons]
          omega
        · split
          · have := ih x scale true
            simp only [List.length_cons]
            omega
          · have := ih (x * 10 + c.toNat - '0'.toNat) (F64.mul scale (F64.ofNat 10)) false
            simp only [List.length_cons]
            omega

theorem length_takeWhile_add_dropWhile (p : Char → Bool) (s : GoString) :
    (s.takeWhile p).length + (s.dropWhile p).length = s.length := by
  rw [← List.length_append, List.takeWhile_append_dropWhile]

theorem fractionPart_length (s1 : GoString) :
    (fractionPart s1).2.2.1.length ≤ s1.length := by
  unfold fractionPart
  split
  · rename_i t
    have := leadingFractionLoop_length t 0 (F64.ofNat 1) false
    simp only [leadingFraction, List.length_cons]
    omega
  · exact Nat.le_refl _

/-- A successful round leaves strictly less text. -/
theorem durationTerm_length (orig s : GoString) (d d1 : Nat) (s3 : GoString)
    (h : durationTerm orig s d = .ok (d1, s3)) : s3.length < s.length := by
  unfold durationTerm at h
  split at h
  · exact absurd h (by simp)
  · split at h
    · exact absurd h (by simp)
    · rename_i v s1 hint
      have hs1 : s1.length ≤ s.length := leadingIntLoop_length s 0 v s1 hint
      have hs2 := fractionPart_length s1
      have hsum := length_takeWhile_add_dropWhile (fun c => !isNumberChar c)
        (fractionPart s1).2.2.1
      simp only at h
      split at h
      · exact absurd h (by simp)
      · split at h
        · exact absurd h (by simp)
        · rename_i hu
          split at h
          · exact absurd h (by simp)
          · split at h
            · exact absurd h (by simp)
            · split at h
              · exact absurd h (by simp)
              · split at h
                · exact absurd h (by simp)
                · simp only [Except.ok.injEq, Prod.mk.injEq] at h
                  rw [← h.2]
                  omega

/-- Any fuel of at least `len(s)` gives the result of the fuel `len(s)`. -/
theorem durationLoop_fuel (orig : GoString) (fuel : Nat) (s : GoString) (d : Nat)
    (h : s.length ≤ fuel) : durationLoop orig fuel s d = durationLoop orig s.length s d := by
  induction fuel using Nat.strong_induction_on generalizing s d with
  | _ fuel ih =>
    cases s with
    | nil => cases fuel <;> rfl
    | cons c rest =>
      cases fuel with
      | zero => simp at h
      | succ fuel =>
        simp only [List.length_cons]
        unfold durationLoop
        cases hterm : durationTerm orig (c :: rest) d with
        | error e => rfl
        | ok res =>
          obtain ⟨d1, s3⟩ := res
          have hlen := durationTerm_length orig (c :: rest) d d1 s3 hterm
          simp only [List.length_cons] at hlen h
          simp only
          rw [ih fuel (by omega) s3 d1 (by omega)]
          by_cases hr : rest.length = fuel
          · rw [hr, ih fuel (by omega) s3 d1 (by omega)]
          · rw [ih rest.length (by omega) s3 d1 (by omega)]

theorem parseUnsigned_hours (orig : GoString) (neg : Bool) (ks : List Nat) (hne : ks ≠ [])
    (hks : ∀ k ∈ ks, k < 10) :
    parseUnsigned orig neg (ks.map digitChar ++ ['h'])
      = if digitsValue 0 ks ≤ 2562047 then
          .ok (if neg then -((digitsValue 0 ks * Hour : Nat) : Int)
            else ((digitsValue 0 ks * Hour : Nat) : Int))
        else .error (.invalid orig) := by
  have hloop := durationLoop_hours orig (ks.map digitChar).length ks hne hks
  have hlen : (ks.map digitChar ++ ['h']).length = (ks.map digitChar).length + 1 := by simp
  have hnot0 : ks.map digitChar ++ ['h'] ≠ "0".toList := by
    intro h
    have := congrArg List.length h
    rw [hlen] at this
    have hpos : 0 < (ks.map digitChar).length := by
      rw [List.length_map]
      exact List.length_pos.mpr hne
    have h0 : "0".toList.length = 1 := by decide
    omega
  have hnil : ks.map digitChar ++ ['h'] ≠ [] := by simp
  unfold parseUnsigned
  rw [if_neg hnot0, if_neg hnil, hlen, hloop]
  by_cases hle : digitsValue 0 ks ≤ 2562047
  · simp only [hle, if_true]
    have hHour : Hour = 3600000000000 := by decide
    have hlt : digitsValue 0 ks * Hour < 2 ^ 63 := by
      rw [hHour]; norm_num; omega
    have hw : wrapInt64 ((digitsValue 0 ks * Hour : Nat) : Int)
        = ((digitsValue 0 ks * Hour : Nat) : Int) := by
      unfold wrapInt64
      omega
    have hwn : wrapInt64 (-((digitsValue 0 ks * Hour : Nat) : Int))
        = -((digitsValue 0 ks * Hour : Nat) : Int) := by
      unfold wrapInt64
      omega
    cases neg
    · have : ¬ digitsValue 0 ks * Hour > 2 ^ 63 - 1 := by omega
      simp only [Bool.false_eq_true, if_false, this, hw]
    · simp only [if_true, hw, hwn]
  · simp only [hle, if_false]

theorem parseDurationExcept_unsigned (c : Char) (t : GoString) (h1 : c ≠ '-')
    (h2 : c ≠ '+') : parseDurationExcept (c :: t) = parseUnsigned (c :: t) false (c :: t) := by
  unfold parseDurationExcept
  split
  · rename_i heq
    simp at heq
    exact absurd heq.1 h1
  · rename_i heq
    simp at heq
    exact absurd heq.1 h2
  · rfl

theorem parseDurationExcept_minus (t : GoString) :
    parseDurationExcept ('-' :: t) = parseUnsigned ('-' :: t) true t := rfl

theorem parseDuration_formatInt_hours (n : Int) :
    ParseDuration (formatInt n ++ "h".toList)
      = if n.natAbs ≤ 2562047 then (n * (Hour : Int), none)
        else (0, some (.invalid (formatInt n ++ "h".toList))) := by
  obtain ⟨ks, hne, hks, hval, hfmt⟩ := formatNat_spec n.natAbs
  have hh : "h".toList = ['h'] := rfl
  unfold ParseDuration formatInt
  rw [hh]
  by_cases hneg : n < 0
  · simp only [hneg, if_true, List.cons_append]
    rw [parseDurationExcept_minus, hfmt, parseUnsigned_hours _ true ks hne hks, hval]
    by_cases hle : n.natAbs ≤ 2562047
    · simp only [hle, if_true]
      congr 1
      push_cast
      rw [abs_of_neg hneg]
      ring
    · simp only [hle, if_false]
  · simp only [hneg, if_false]
    rw [hfmt]
    cases ks with
    | nil => exact absurd rfl hne
    | cons k rest =>
      have hk : k < 10 := hks k (by simp)
      obtain ⟨hm, hp, _⟩ := digitChar_ne_sign k hk
      simp only [List.map_cons, List.cons_append]
      rw [parseDurationExcept_unsigned _ _ hm hp]
      have := parseUnsigned_hours (digitChar k :: (rest.map digitChar ++ ['h'])) false
        (k :: rest) hne hks
      simp only [List.map_cons, List.cons_append] at this
      rw [this, hval]
      by_cases hle : n.natAbs ≤ 2562047
      · simp only [hle, if_true, Bool.false_eq_true, if_false]
        congr 1
        push_cast
        rw [abs_of_nonneg (by omega)]
      · simp only [hle, if_false]

theorem hasSuffix_snoc (s : GoString) (c : Char) : HasSuffix (s ++ [c]) [c] = true := by
  unfold HasSuffix
  simp

theorem trimSuffix_snoc (s : GoString) (c : Char) : TrimSuffix (s ++ [c]) [c] = s := by
  unfold TrimSuffix
  rw [hasSuffix_snoc]
  simp

theorem parseDuration_formatInt_days (n : Int) :
    parseDuration (formatInt n ++ "d".toList)
      = if n.natAbs ≤ 2562047 then (wrapInt64 (n * (Hour : Int) * 24), none)
        else (0, some (.invalid (formatInt n ++ "h".toList))) := by
  have hd : "d".toList = ['d'] := rfl
  unfold parseDuration
  rw [hd, hasSuffix_snoc, trimSuffix_snoc]
  simp only [if_true]
  rw [parseDuration_formatInt_hours]
  by_cases hle : n.natAbs ≤ 2562047
  · simp only [hle, if_true]
  · simp only [hle, if_false]

theorem parseDuration_error_zero (s : GoString) (h : (ParseDuration s).2 ≠ none) :
    ParseDuration s = (0, (ParseDuration s).2) := by
  unfold ParseDuration at h ⊢
  revert h
  cases parseDurationExcept s with
  | ok d => intro h; exact absurd rfl h
  | error e => intro _; rfl

/-! ## Template loading -/

theorem scanLoop_eq (lines acc : List GoString) :
    scanLoop lines acc = acc ++ (lines.map TrimSpace).filter (fun l => decide (l ≠ [])) := by
  induction lines generalizing acc with
  | nil => simp [scanLoop]
  | cons text rest ih =>
    unfold scanLoop
    by_cases h : TrimSpace text = []
    · simp [h, ih]
    · simp [h, ih]

theorem trimSpace_decompose (s : GoString) :
    s = s.takeWhile isSpace ++ TrimSpace s
      ++ ((s.dropWhile isSpace).reverse.takeWhile isSpace).reverse := by
  have h1 := List.takeWhile_append_dropWhile isSpace s
  have h2 := List.takeWhile_append_dropWhile isSpace (s.dropWhile isSpace).reverse
  have h3 : s.dropWhile isSpace
      = ((s.dropWhile isSpace).reverse.dropWhile isSpace).reverse
        ++ ((s.dropWhile isSpace).reverse.takeWhile isSpace).reverse := by
    rw [← List.reverse_append, h2, List.reverse_reverse]
  unfold TrimSpace
  rw [List.append_assoc, ← h3, h1]

theorem trimSpace_getLast (s : GoString) (c : Char)
    (h : (TrimSpace s).getLast? = some c) : isSpace c = false := by
  unfold TrimSpace at h
  rw [List.getLast?_reverse] at h
  have := List.head?_dropWhile_not isSpace (s.dropWhile isSpace).reverse
  rw [h] at this
  exact this

theorem trimSpace_head (s : GoString) (c : Char)
    (h : (TrimSpace s).head? = some c) : isSpace c = false := by
  have hd := List.head?_dropWhile_not isSpace s
  have h2 := List.takeWhile_append_dropWhile isSpace (s.dropWhile isSpace).reverse
  have h3 : s.dropWhile isSpace
      = TrimSpace s ++ ((s.dropWhile isSpace).reverse.takeWhile isSpace).reverse := by
    unfold TrimSpace
    rw [← List.reverse_append, h2, List.reverse_reverse]
  rw [h3] at hd
  cases ht : TrimSpace s with
  | nil => rw [ht] at h; simp at h
  | cons a rest =>
    rw [ht] at h hd
    simp at h hd
    rw [← h]
    exact hd

/-! ## Substitution -/

theorem index_eq_none (old s : GoString) (h : ¬ old <:+: s) : Index s old = none := by
  induction s with
  | nil =>
    unfold Index
    have : old ≠ [] := by
      intro hnil
      apply h
      rw [hnil]
    simp [this]
  | cons c rest ih =>
    rw [List.infix_cons_iff] at h
    push_neg at h
    unfold Index
    have hp : old.isPrefixOf (c :: rest) = false := by
      rw [Bool.eq_false_iff]
      intro hpre
      exact h.1 (List.isPrefixOf_iff_prefix.mp hpre)
    simp [hp, ih h.2]

theorem replaceAll_absent (s old new : GoString) (h : ¬ old <:+: s) :
    ReplaceAll s old new = s := by
  unfold ReplaceAll Replace
  have hc : Count s old = 0 := by
    unfold Count countLoop
    rw [index_eq_none old s h]
  simp [hc]

theorem replaceAll_self (old new : GoString) (hold : old ≠ []) :
    ReplaceAll old old new = new := by
  have hidx : Index old old = some 0 := by
    cases old with
    | nil => exact absurd rfl hold
    | cons c rest =>
      unfold Index
      have : (c :: rest).isPrefixOf (c :: rest) = true :=
        List.isPrefixOf_iff_prefix.mpr (List.prefix_refl _)
      simp [this]
  have hnone : Index ([] : GoString) old = none := by
    unfold Index
    simp [hold]
  have hc : Count old old = 1 := by
    unfold Count countLoop
    rw [hidx]
    simp only [Nat.zero_add, List.drop_length]
    cases hl : old.length with
    | zero => exact absurd (List.length_eq_zero.mp hl) hold
    | succ n =>
      unfold countLoop
      rw [hnone]
  unfold ReplaceAll Replace
  by_cases heq : old = new
  · simp [heq]
  · simp [heq, hc, replaceLoop, hidx]

/-! ## The worker walk -/

theorem calls_append (a b : List Event) : calls (a ++ b) = calls a ++ calls b := by
  induction a with
  | nil => rfl
  | cons ev rest ih => cases ev <;> simp [calls, ih]

theorem logs_append (a b : List Event) : logs (a ++ b) = logs a ++ logs b := by
  induction a with
  | nil => rfl
  | cons ev rest ih => cases ev <;> simp [logs, ih]

theorem calls_queriesLoop (cfg : Config) (start stop : Int) (i : Nat) (inst : GoString)
    (exec : Nat → Option GoError) (qs : List GoString) (j : Nat) :
    calls (queriesLoop cfg start stop i inst exec qs j)
      = qs.map (fun q => pairCall cfg start stop inst q) := by
  induction qs generalizing j with
  | nil => rfl
  | cons q rest ih =>
    unfold queriesLoop
    cases exec j <;> simp [calls, ih, pairCall]

theorem calls_instancesLoop (cfg : Config) (start stop : Int)
    (exec : Nat → Nat → Option GoError) (insts : List GoString) (i : Nat) :
    calls (instancesLoop cfg start stop exec insts i)
      = insts.flatMap (fun inst => cfg.queries.map (fun q => pairCall cfg start stop inst q)) := by
  induction insts generalizing i with
  | nil => rfl
  | cons inst rest ih =>
    unfold instancesLoop
    simp [calls_append, calls, calls_queriesLoop, ih]

theorem calls_worker (cfg : Config) (start stop : Int) (exec : Nat → Nat → Option GoError) :
    calls (worker cfg start stop exec) = crossProductCalls cfg start stop :=
  calls_instancesLoop cfg start stop exec cfg.instances 0

theorem length_crossProductCalls (cfg : Config) (start stop : Int) :
    (crossProductCalls cfg start stop).length = cfg.instances.length * cfg.queries.length := by
  unfold crossProductCalls
  induction cfg.instances with
  | nil => simp
  | cons inst rest ih => simp [List.flatMap_cons, ih, Nat.succ_mul, Nat.add_comm]

theorem logs_queriesLoop (cfg : Config) (start stop : Int) (i : Nat) (inst : GoString)
    (exec : Nat → Option GoError) (qs : List GoString) (j : Nat) :
    logs (queriesLoop cfg start stop i inst exec qs j)
      = (List.range qs.length).filterMap (fun k => (exec (j + k)).map (failureLine i)) := by
  induction qs generalizing j with
  | nil => rfl
  | cons q rest ih =>
    unfold queriesLoop
    rw [List.length_cons, List.range_succ_eq_map, List.filterMap_cons, List.filterMap_map]
    have hshift : (fun k => (exec (j + k)).map (failureLine i)) ∘ Nat.succ
        = fun k => (exec (j + 1 + k)).map (failureLine i) := by
      funext k
      simp [Function.comp, Nat.succ_eq_add_one, Nat.add_assoc, Nat.add_comm 1 k]
    rw [hshift]
    cases h : exec j <;> simp [logs, ih, h]

theorem logs_instancesLoop (cfg : Config) (start stop : Int)
    (exec : Nat → Nat → Option GoError) (insts : List GoString) (i : Nat) :
    logs (instancesLoop cfg start stop exec insts i)
      = (List.range insts.length).flatMap (fun k =>
          (List.range cfg.queries.length).filterMap
            (fun j => (exec (i + k) j).map (failureLine (i + k)))) := by
  induction insts generalizing i with
  | nil => rfl
  | cons inst rest ih =>
    unfold instancesLoop
    rw [logs_append, logs_queriesLoop, List.length_cons, List.range_succ_eq_map,
      List.flatMap_cons, List.flatMap_map]
    simp only [logs, ih, Nat.zero_add, Nat.add_zero, Nat.succ_eq_add_one]
    congr 1
    congr 1
    funext k
    simp [Nat.add_assoc, Nat.add_comm 1 k]

theorem logs_worker (cfg : Config) (start stop : Int) (exec : Nat → Nat → Option GoError) :
    logs (worker cfg start stop exec)
      = failureLines cfg.instances.length cfg.queries.length exec := by
  unfold worker failureLines
  rw [logs_instancesLoop]
  simp

theorem windowStart_eq_sub (stop duration : Int) (hlo : minInt64 < duration)
    (hhi : duration ≤ maxInt64) : windowStart stop duration = stop - duration := by
  unfold windowStart wrapInt64
  unfold minInt64 at hlo
  unfold maxInt64 at hhi
  omega

/-! ## binary64 rounding below one -/

theorem bitLength_spec (fuel n : Nat) (h : n ≤ fuel) :
    n < 2 ^ bitLength fuel n ∧ (0 < n → 2 ^ (bitLength fuel n - 1) ≤ n) := by
  induction fuel generalizing n with
  | zero =>
    have : n = 0 := by omega
    subst this
    simp [bitLength]
  | succ fuel ih =>
    unfold bitLength
    by_cases hn : n = 0
    · subst hn
      simp
    · rw [if_neg hn]
      obtain ⟨hlt, hge⟩ := ih (n / 2) (by omega)
      constructor
      · rw [Nat.pow_succ]
        omega
      · intro _
        rw [Nat.add_sub_cancel]
        by_cases h2 : n / 2 = 0
        · have hL : bitLength fuel (n / 2) = 0 := by
            rw [h2]
            cases fuel <;> simp [bitLength]
          rw [hL]
          simp
          omega
        · have hpos : 0 < n / 2 := Nat.pos_of_ne_zero h2
          have hge' := hge hpos
          have hL : 1 ≤ bitLength fuel (n / 2) := by
            by_contra hc
            have : bitLength fuel (n / 2) = 0 := by omega
            rw [this] at hlt
            simp at hlt
            omega
          have : 2 ^ bitLength fuel (n / 2) = 2 * 2 ^ (bitLength fuel (n / 2) - 1) := by
            rw [← Nat.pow_succ']
            congr 1
            omega
          omega

theorem ilog2_spec (n : Nat) (hn : 0 < n) : 2 ^ ilog2 n ≤ n ∧ n < 2 ^ (ilog2 n + 1) := by
  obtain ⟨hlt, hge⟩ := bitLength_spec n n (Nat.le_refl n)
  unfold ilog2
  have hL : 1 ≤ bitLength n n := by
    by_contra hc
    have : bitLength n n = 0 := by omega
    rw [this] at hlt
    simp at hlt
    omega
  refine ⟨hge hn, ?_⟩
  have : bitLength n n - 1 + 1 = bitLength n n := by omega
  rw [this]
  exact hlt

theorem ilog2_mono (p q : Nat) (hp : 0 < p) (hpq : p ≤ q) : ilog2 p ≤ ilog2 q := by
  obtain ⟨h1, _⟩ := ilog2_spec p hp
  obtain ⟨_, h2⟩ := ilog2_spec q (by omega)
  have : 2 ^ ilog2 p < 2 ^ (ilog2 q + 1) := by omega
  have := (Nat.pow_lt_pow_iff_right (by norm_num : 1 < 2)).mp this
  omega

theorem floorLog2_neg (p q : Nat) (hp : 0 < p) (hpq : p < q) : floorLog2 p q ≤ -1 := by
  have hmono := ilog2_mono p q hp (by omega)
  unfold floorLog2
  simp only
  by_cases hd : ilog2 p = ilog2 q
  · have h0 : (ilog2 p : Int) - (ilog2 q : Int) = 0 := by omega
    rw [h0]
    have : (shiftFrac p q 0).1 < (shiftFrac p q 0).2 := by
      simp [shiftFrac]
      exact hpq
    rw [if_pos this]
    norm_num
  · split <;> omega

theorem roundHalfEven_ge (p q k : Nat) (hq : 0 < q) (h : k * q ≤ p) :
    k ≤ roundHalfEven p q := by
  have hk : k ≤ p / q := (Nat.le_div_iff_mul_le hq).mpr h
  unfold roundHalfEven
  simp only
  split
  · exact hk
  · split
    · omega
    · split <;> omega

theorem roundHalfEven_le (p q k : Nat) (hq : 0 < q) (h : p ≤ k * q) :
    roundHalfEven p q ≤ k := by
  have hdm := Nat.div_add_mod p q
  have hmod := Nat.mod_lt p hq
  have hf : p / q ≤ k := by
    apply Nat.div_le_of_le_mul
    rw [Nat.mul_comm]
    exact h
  unfold roundHalfEven
  simp only
  by_cases hr : p % q = 0
  · have : 2 * (p % q) < q := by omega
    rw [if_pos this]
    exact hf
  · have hlt : p / q < k := by
      by_contra hc
      have hkf : k = p / q := by omega
      have : q * (p / q) < k * q := by
        have := Nat.pos_of_ne_zero hr
        omega
      rw [hkf, Nat.mul_comm] at this
      omega
    split
    · exact hf
    · split
      · omega
      · split <;> omega

/-- Rounding a ratio in `(0, 1)`: the result is `m * 2 ^ (-n)` with `n ≥ 53`,
and it lies on the same side of every multiple of `2 ^ (-53)` as the ratio. -/
theorem roundF64_below_one (p q : Nat) (hp : 0 < p) (hpq : p < q) :
    ∃ m n : Nat, 53 ≤ n ∧ roundF64 p q = .fin m (-(n : Int)) ∧
      (∀ k, k * q ≤ p * 2 ^ 53 → k * 2 ^ n ≤ m * 2 ^ 53) ∧
      (∀ k, p * 2 ^ 53 ≤ k * q → m * 2 ^ 53 ≤ k * 2 ^ n) := by
  have hE := floorLog2_neg p q hp hpq
  obtain ⟨n, hn⟩ : ∃ n : Nat, max (floorLog2 p q - 52) (-1074) = -(n : Int) ∧ 53 ≤ n := by
    refine ⟨(-(max (floorLog2 p q - 52) (-1074))).toNat, ?_, ?_⟩ <;> omega
  refine ⟨roundHalfEven (p * 2 ^ n) q, n, hn.2, ?_, ?_, ?_⟩
  · unfold roundF64
    rw [if_neg (by omega)]
    simp only [hn.1]
    have hs : shiftFrac p q (-(n : Int)) = (p * 2 ^ n, q) := by
      unfold shiftFrac
      rw [if_neg (by omega)]
      simp
    rw [hs]
    rw [if_neg (by omega)]
  · intro k hk
    have hsplit : 2 ^ n = 2 ^ (n - 53) * 2 ^ 53 := by
      rw [← Nat.pow_add]
      congr 1
      omega
    have : k * 2 ^ (n - 53) ≤ roundHalfEven (p * 2 ^ n) q := by
      apply roundHalfEven_ge _ _ _ (by omega)
      rw [hsplit]
      calc k * 2 ^ (n - 53) * q = (k * q) * 2 ^ (n - 53) := by ring
        _ ≤ (p * 2 ^ 53) * 2 ^ (n - 53) := Nat.mul_le_mul_right _ hk
        _ = p * (2 ^ (n - 53) * 2 ^ 53) := by ring
    calc k * 2 ^ n = (k * 2 ^ (n - 53)) * 2 ^ 53 := by rw [hsplit]; ring
      _ ≤ roundHalfEven (p * 2 ^ n) q * 2 ^ 53 := Nat.mul_le_mul_right _ this
  · intro k hk
    have hsplit : 2 ^ n = 2 ^ (n - 53) * 2 ^ 53 := by
      rw [← Nat.pow_add]
      congr 1
      omega
    have : roundHalfEven (p * 2 ^ n) q ≤ k * 2 ^ (n - 53) := by
      apply roundHalfEven_le _ _ _ (by omega)
      rw [hsplit]
      calc p * (2 ^ (n - 53) * 2 ^ 53) = (p * 2 ^ 53) * 2 ^ (n - 53) := by ring
        _ ≤ (k * q) * 2 ^ (n - 53) := Nat.mul_le_mul_right _ hk
        _ = k * 2 ^ (n - 53) * q := by ring
    calc roundHalfEven (p * 2 ^ n) q * 2 ^ 53 ≤ (k * 2 ^ (n - 53)) * 2 ^ 53 :=
          Nat.mul_le_mul_right _ this
      _ = k * 2 ^ n := by rw [hsplit]; ring

theorem roundHalfEven_one (p : Nat) : roundHalfEven p 1 = p := by
  unfold roundHalfEven
  simp [Nat.mod_one]

/-- The conversion `float64(b)` is exact below `2 ^ 53`. -/
theorem ofNat_exact (b : Nat) (hb : 0 < b) (hlt : b < 2 ^ 53) :
    ∃ t : Nat, F64.ofNat b = .fin (b * 2 ^ t) (-(t : Int)) := by
  obtain ⟨hlo, hhi⟩ := ilog2_spec b hb
  have ha : ilog2 b ≤ 52 := by
    have : 2 ^ ilog2 b < 2 ^ 53 := by omega
    have := (Nat.pow_lt_pow_iff_right (by norm_num : 1 < 2)).mp this
    omega
  have h1 : ilog2 1 = 0 := by decide
  have hE : floorLog2 b 1 = (ilog2 b : Int) := by
    unfold floorLog2
    simp only [h1]
    have hs : shiftFrac b 1 ((ilog2 b : Int) - ((0 : Nat) : Int)) = (b, 2 ^ ilog2 b) := by
      unfold shiftFrac
      rw [if_pos (by omega)]
      simp
    rw [hs]
    simp only
    rw [if_neg (by omega)]
    simp
  refine ⟨52 - ilog2 b, ?_⟩
  unfold F64.ofNat roundF64
  rw [if_neg (by omega), hE]
  have he : max ((ilog2 b : Int) - 52) (-1074) = -((52 - ilog2 b : Nat) : Int) := by omega
  simp only [he]
  rw [if_neg (by omega)]
  by_cases ht : 52 - ilog2 b = 0
  · rw [ht]
    simp [shiftFrac, roundHalfEven_one]
  · have hs : shiftFrac b 1 (-((52 - ilog2 b : Nat) : Int)) = (b * 2 ^ (52 - ilog2 b), 1) := by
      unfold shiftFrac
      rw [if_neg (by omega)]
      simp
    rw [hs]
    simp [roundHalfEven_one]

theorem num_fin_neg (m n : Nat) : (F64.fin m (-(n : Int))).num = m := by
  simp [F64.num, shiftFrac]

theorem den_fin_neg (m n : Nat) : (F64.fin m (-(n : Int))).den = 2 ^ n := by
  simp [F64.den, shiftFrac]

/-- The value `Duration.Seconds` of a span below one second: `m * 2 ^ (-n)` on the same
side of every multiple of `2 ^ (-53)` as the exact quotient `b / 1e9`. -/
theorem seconds_subsecond (b : Nat) (hb : 0 < b) (hlt : b < 1000000000) :
    ∃ m n : Nat, Seconds (b : Int) = (false, .fin m (-(n : Int))) ∧
      (∀ k, k * 1000000000 ≤ b * 2 ^ 53 → k * 2 ^ n ≤ m * 2 ^ 53) ∧
      (∀ k, b * 2 ^ 53 ≤ k * 1000000000 → m * 2 ^ 53 ≤ k * 2 ^ n) := by
  have hS : (Second : Int) = 1000000000 := by decide
  have hdiv : Int.tdiv (b : Int) (Second : Int) = 0 :=
    Int.tdiv_eq_zero_of_lt (by omega) (by omega)
  have hmod : Int.tmod (b : Int) (Second : Int) = b :=
    Int.tmod_eq_of_lt (by omega) (by omega)
  have hz : F64.ofNat 0 = .fin 0 0 := by decide
  have hG : F64.ofNat 1000000000 = .fin 8388608000000000 (-((23 : Nat) : Int)) := by decide
  obtain ⟨t, hbt⟩ := ofNat_exact b hb (by norm_num; omega)
  -- the quotient float64(nsec) / 1e9
  have hpos : 0 < b * 2 ^ t * 2 ^ 23 := by positivity
  have hlt' : b * 2 ^ t * 2 ^ 23 < 2 ^ t * 8388608000000000 := by
    have h2t : 0 < 2 ^ t := by positivity
    have : 2 ^ t * 8388608000000000 = 1000000000 * 2 ^ t * 2 ^ 23 := by ring
    rw [this]
    have hb' : b * 2 ^ t < 1000000000 * 2 ^ t := Nat.mul_lt_mul_of_pos_right hlt h2t
    exact Nat.mul_lt_mul_of_pos_right hb' (by positivity)
  obtain ⟨m1, n1, hn1, hr1, hlo1, hhi1⟩ :=
    roundF64_below_one (b * 2 ^ t * 2 ^ 23) (2 ^ t * 8388608000000000) hpos hlt'
  have hquot : F64.div (F64.ofNat b) (F64.ofNat 1000000000) = .fin m1 (-(n1 : Int)) := by
    rw [hbt, hG]
    unfold F64.div
    simp only [num_fin_neg, den_fin_neg]
    exact hr1
  -- transfer of the bounds from the scaled fraction to b / 1e9
  have hscale : ∀ k, k * (2 ^ t * 8388608000000000) = (k * 1000000000) * (2 ^ t * 2 ^ 23) := by
    intro k; ring
  have hscale' : b * 2 ^ t * 2 ^ 23 * 2 ^ 53 = (b * 2 ^ 53) * (2 ^ t * 2 ^ 23) := by ring
  have hcpos : 0 < 2 ^ t * 2 ^ 23 := by positivity
  have hlo1' : ∀ k, k * 1000000000 ≤ b * 2 ^ 53 → k * 2 ^ n1 ≤ m1 * 2 ^ 53 := by
    intro k hk
    apply hlo1
    rw [hscale, hscale']
    exact Nat.mul_le_mul_right _ hk
  have hhi1' : ∀ k, b * 2 ^ 53 ≤ k * 1000000000 → m1 * 2 ^ 53 ≤ k * 2 ^ n1 := by
    intro k hk
    apply hhi1
    rw [hscale, hscale']
    exact Nat.mul_le_mul_right _ hk
  -- the sum float64(sec) + quotient with sec = 0
  have hm1pos : 0 < m1 := by
    have := hlo1' 1 (by norm_num; omega)
    have h2 : 0 < 2 ^ n1 := by positivity
    by_contra hc
    have : m1 = 0 := by omega
    subst this
    omega
  have hm1lt : m1 < 2 ^ n1 := by
    have := hhi1' (2 ^ 53 - 1) (by norm_num; omega)
    have h2 : 0 < 2 ^ n1 := by positivity
    by_contra hc
    have hge : 2 ^ n1 ≤ m1 := by omega
    have : 2 ^ n1 * 2 ^ 53 ≤ m1 * 2 ^ 53 := Nat.mul_le_mul_right _ hge
    have h3 : (2 ^ 53 - 1) * 2 ^ n1 < 2 ^ n1 * 2 ^ 53 := by
      rw [Nat.mul_comm (2 ^ n1)]
      exact Nat.mul_lt_mul_of_pos_right (by norm_num) h2
    omega
  obtain ⟨m2, n2, hn2, hr2, hlo2, hhi2⟩ := roundF64_below_one m1 (2 ^ n1) hm1pos hm1lt
  refine ⟨m2, n2, ?_, ?_, ?_⟩
  · unfold Seconds
    rw [hdiv, hmod]
    simp only [Int.natAbs_zero, Int.natAbs_ofNat, hz, hquot]
    have hnn : ¬ ((b : Int) < 0) := by omega
    simp only [hnn, decide_False]
    congr 1
    unfold F64.add
    simp only [num_fin_neg, den_fin_neg]
    have h00n : (F64.fin 0 0).num = 0 := by decide
    have h00d : (F64.fin 0 0).den = 1 := by decide
    rw [h00n, h00d]
    simp only [Nat.zero_mul, Nat.zero_add, Nat.mul_one, Nat.one_mul]
    exact hr2
  · intro k hk
    exact hlo2 k (hlo1' k hk)
  · intro k hk
    exact hhi2 k (hhi1' k hk)

theorem roundHalfEven_small (m q : Nat) (h : 2 * m ≤ q) (hq : 0 < q) :
    roundHalfEven m q = 0 := by
  have hlt : m < q := by omega
  unfold roundHalfEven
  simp only [Nat.div_eq_of_lt hlt, Nat.mod_eq_of_lt hlt]
  split
  · rfl
  · split
    · omega
    · rfl

theorem roundHalfEven_upper_half (m q : Nat) (h : q < 2 * m) (hlt : m < q) :
    roundHalfEven m q = 1 := by
  unfold roundHalfEven
  simp only [Nat.div_eq_of_lt hlt, Nat.mod_eq_of_lt hlt]
  rw [if_neg (by omega), if_pos h]

theorem stepParam_subsecond_nat (b : Nat) (hlt : b < 1000000000) :
    stepParam (b : Int) = if b ≤ 500000000 then ['0'] else ['1'] := by
  by_cases hb : b = 0
  · subst hb
    decide
  · obtain ⟨m, n, hsec, hlo, hhi⟩ := seconds_subsecond b (Nat.pos_of_ne_zero hb) hlt
    have h2n : 0 < 2 ^ n := by positivity
    have hmlt : m < 2 ^ n := by
      have := hhi (2 ^ 53 - 1) (by norm_num; omega)
      by_contra hc
      have hge : 2 ^ n ≤ m := by omega
      have : 2 ^ n * 2 ^ 53 ≤ m * 2 ^ 53 := Nat.mul_le_mul_right _ hge
      have h3 : (2 ^ 53 - 1) * 2 ^ n < 2 ^ n * 2 ^ 53 := by
        rw [Nat.mul_comm (2 ^ n)]
        exact Nat.mul_lt_mul_of_pos_right (by norm_num) h2n
      omega
    unfold stepParam formatFloat0
    rw [hsec]
    simp only [Bool.false_eq_true, if_false, List.nil_append, num_fin_neg, den_fin_neg]
    by_cases hle : b ≤ 500000000
    · rw [if_pos hle]
      have := hhi (2 ^ 52) (by norm_num; omega)
      have h2 : 2 * m ≤ 2 ^ n := by
        have h53 : (2 : Nat) ^ 53 = 2 * 2 ^ 52 := by norm_num
        rw [h53] at this
        have : (2 * m) * 2 ^ 52 ≤ 2 ^ n * 2 ^ 52 := by
          calc (2 * m) * 2 ^ 52 = m * (2 * 2 ^ 52) := by ring
            _ ≤ 2 ^ 52 * 2 ^ n := this
            _ = 2 ^ n * 2 ^ 52 := by ring
        exact Nat.le_of_mul_le_mul_right this (by norm_num)
      rw [roundHalfEven_small m (2 ^ n) h2 h2n]
      decide
    · rw [if_neg hle]
      have := hlo (2 ^ 52 + 1) (by norm_num; omega)
      have h2 : 2 ^ n < 2 * m := by
        have h53 : (2 : Nat) ^ 53 = 2 * 2 ^ 52 := by norm_num
        rw [h53] at this
        have h4 : 2 ^ n * 2 ^ 52 < (2 * m) * 2 ^ 52 := by
          calc 2 ^ n * 2 ^ 52 < (2 ^ 52 + 1) * 2 ^ n := by
                rw [Nat.mul_comm]
                exact Nat.mul_lt_mul_of_pos_right (by norm_num) h2n
            _ ≤ m * (2 * 2 ^ 52) := this
            _ = (2 * m) * 2 ^ 52 := by ring
        exact Nat.lt_of_mul_lt_mul_right h4
      rw [roundHalfEven_upper_half m (2 ^ n) h2 hmlt]
      decide

/-! ## The claims -/

/-- C1 (amended): for every integer `n`, written in decimal, with
`|n| ≤ 106751` or `|n| > 2562047`, `parseDuration` on the text `<n>d` returns
the same span as `time.ParseDuration` on the text `<24*n>h` and fails exactly
when that fails: for `|n| ≤ 106751` both return the span of `24 * n` hours
and no error, for `|n| > 2562047` both return the zero span with an error
(`time: invalid duration` on the text each handed to the primitive parser). -/
theorem parseDuration_days_eq_hours (n : Int)
    (h : n.natAbs ≤ 106751 ∨ 2562047 < n.natAbs) :
    (parseDuration (formatInt n ++ "d".toList)).1
        = (ParseDuration (formatInt (24 * n) ++ "h".toList)).1
      ∧ ((parseDuration (formatInt n ++ "d".toList)).2 = none
          ↔ (ParseDuration (formatInt (24 * n) ++ "h".toList)).2 = none)
      ∧ (n.natAbs ≤ 106751 →
          parseDuration (formatInt n ++ "d".toList) = (24 * n * (Hour : Int), none)
            ∧ ParseDuration (formatInt (24 * n) ++ "h".toList)
                = (24 * n * (Hour : Int), none))
      ∧ (2562047 < n.natAbs →
          parseDuration (formatInt n ++ "d".toList)
              = (0, some (.invalid (formatInt n ++ "h".toList)))
            ∧ ParseDuration (formatInt (24 * n) ++ "h".toList)
                = (0, some (.invalid (formatInt (24 * n) ++ "h".toList)))) := by
  have hHour : (Hour : Int) = 3600000000000 := by decide
  rw [parseDuration_formatInt_days, parseDuration_formatInt_hours]
  rcases h with hsmall | hbig
  · have h1 : n.natAbs ≤ 2562047 := by omega
    have h2 : (24 * n).natAbs ≤ 2562047 := by omega
    have hw : wrapInt64 (n * (Hour : Int) * 24) = 24 * n * (Hour : Int) := by
      unfold wrapInt64
      rw [hHour]
      omega
    rw [if_pos h1, if_pos h2, hw]
    exact ⟨rfl, Iff.rfl, fun _ => ⟨rfl, rfl⟩, fun hgt => absurd hgt (by omega)⟩
  · have h1 : ¬ n.natAbs ≤ 2562047 := by omega
    have h2 : ¬ (24 * n).natAbs ≤ 2562047 := by omega
    rw [if_neg h1, if_neg h2]
    refine ⟨rfl, ?_, fun hle => absurd hle (by omega), fun _ => ⟨rfl, rfl⟩⟩
    simp

/-- C1 at `n = 2`: the text `2d` parses to the span of the text `48h`, two
days, with no error. -/
theorem parseDuration_days_eq_hours_witness :
    ((2 : Int).natAbs ≤ 106751 ∨ 2562047 < (2 : Int).natAbs)
      ∧ formatInt 2 ++ "d".toList = "2d".toList
      ∧ formatInt (24 * 2) ++ "h".toList = "48h".toList
      ∧ (parseDuration (formatInt 2 ++ "d".toList)).1
          = (ParseDuration (formatInt (24 * 2) ++ "h".toList)).1
      ∧ ((parseDuration (formatInt 2 ++ "d".toList)).2 = none
          ↔ (ParseDuration (formatInt (24 * 2) ++ "h".toList)).2 = none)
      ∧ parseDuration (formatInt 2 ++ "d".toList) = (24 * 2 * (Hour : Int), none)
      ∧ ParseDuration (formatInt (24 * 2) ++ "h".toList) = (24 * 2 * (Hour : Int), none) :=
  ⟨by decide, by decide, by decide,
    (parseDuration_days_eq_hours 2 (by decide)).1,
    (parseDuration_days_eq_hours 2 (by decide)).2.1,
    ((parseDuration_days_eq_hours 2 (by decide)).2.2.1 (by decide)).1,
    ((parseDuration_days_eq_hours 2 (by decide)).2.2.1 (by decide)).2⟩

/-- C1 as stated fails at `n = 106752`: `parseDuration` on `106752d` succeeds
with the product `106752 h * 24` wrapped in `int64` (a negative span), while
`time.ParseDuration` rejects `2562048h`. -/
theorem parseDuration_days_overflow :
    formatInt 106752 ++ "d".toList = "106752d".toList
      ∧ formatInt (24 * 106752) ++ "h".toList = "2562048h".toList
      ∧ parseDuration "106752d".toList = (-9223371273709551616, none)
      ∧ ParseDuration "2562048h".toList = (0, some (.invalid "2562048h".toList))
      ∧ parseDuration (formatInt 106752 ++ "d".toList)
          ≠ ParseDuration (formatInt (24 * 106752) ++ "h".toList) := by
  refine ⟨by decide, by decide, by decide, by decide, by decide⟩

/-- C2: whenever `time.ParseDuration` rejects the text `parseDuration` hands
to it (the expression itself, or the expression with its final `d` replaced
by `h`), `parseDuration` returns the zero span together with that error; in
particular it fails with the zero span on `abc`, `-d`, `d` and the empty
string. -/
theorem parseDuration_rejects :
    (∀ s : GoString, (ParseDuration (primitiveInput s)).2 ≠ none →
        parseDuration s = (0, (ParseDuration (primitiveInput s)).2))
      ∧ parseDuration "abc".toList = (0, some (.invalid "abc".toList))
      ∧ parseDuration "-d".toList = (0, some (.invalid "-h".toList))
      ∧ parseDuration "d".toList = (0, some (.invalid "h".toList))
      ∧ parseDuration "".toList = (0, some (.invalid "".toList)) := by
  refine ⟨?_, by decide, by decide, by decide, by decide⟩
  intro s hs
  unfold primitiveInput at hs ⊢
  unfold parseDuration
  by_cases hd : HasSuffix s "d".toList = true
  · simp only [hd, if_true] at hs ⊢
    cases hp : ParseDuration (TrimSuffix s "d".toList ++ "h".toList) with
    | mk n err =>
      rw [hp] at hs
      cases err with
      | none => exact absurd rfl hs
      | some e => rfl
  · simp only [hd, Bool.false_eq_true, if_false] at hs ⊢
    exact parseDuration_error_zero s hs

/-- C2 on the expression `1x`: the primitive parser rejects it, so
`parseDuration` returns the zero span and the error. -/
theorem parseDuration_rejects_witness :
    (ParseDuration (primitiveInput "1x".toList)).2 ≠ none
      ∧ parseDuration "1x".toList = (0, (ParseDuration (primitiveInput "1x".toList)).2) :=
  ⟨by decide, parseDuration_rejects.1 "1x".toList (by decide)⟩

/-- C3: for every sequence of lines the scanner yields without error,
`loadQueries` returns no error and exactly the lines `TrimSpace` leaves
non-empty, trimmed, in their order; a trimmed line is the line without a
leading and a trailing run of white space (its interior is untouched and it
neither starts nor ends with white space); the lines `"  "`,
`up{instance="host-0"}`, `""`, `rate(foo[5m])` load as the two templates. -/
theorem loadQueries_trimmed_nonblank (lines : List GoString) :
    loadQueries (.ok ⟨lines, none⟩)
        = ((lines.map TrimSpace).filter (fun l => decide (l ≠ [])), none)
      ∧ (∀ line : GoString, ∃ pre post : GoString,
          line = pre ++ TrimSpace line ++ post
            ∧ (∀ c ∈ pre, isSpace c = true) ∧ (∀ c ∈ post, isSpace c = true)
            ∧ (∀ c, (TrimSpace line).head? = some c → isSpace c = false)
            ∧ (∀ c, (TrimSpace line).getLast? = some c → isSpace c = false))
      ∧ loadQueries (.ok ⟨["  ".toList, "up\x7binstance=\"host-0\"\x7d".toList, "".toList,
            "rate(foo[5m])".toList], none⟩)
          = (["up\x7binstance=\"host-0\"\x7d".toList, "rate(foo[5m])".toList], none) := by
  refine ⟨?_, ?_, by decide⟩
  · unfold loadQueries
    simp only [scanLoop_eq, List.nil_append]
  · intro line
    refine ⟨line.takeWhile isSpace,
      ((line.dropWhile isSpace).reverse.takeWhile isSpace).reverse,
      trimSpace_decompose line, ?_, ?_, trimSpace_head line, trimSpace_getLast line⟩
    · intro c hc
      exact List.mem_takeWhile_imp hc
    · intro c hc
      exact List.mem_takeWhile_imp (List.mem_reverse.mp hc)

/-- C4 (amended): when the scanner stops with a read error, `loadQueries`
returns that error together with the trimmed non-blank lines read before it
(not an empty sequence); the partial result is dropped by the caller: the
start-up of `main` ends in `os.Exit(1)`. -/
theorem loadQueries_read_error (lines : List GoString) (err : GoError) :
    loadQueries (.ok ⟨lines, some err⟩)
        = ((lines.map TrimSpace).filter (fun l => decide (l ≠ [])), some err)
      ∧ ∀ (flags : Flags) (labels : List GoString × Option GoError),
          startup flags labels (.ok ⟨lines, some err⟩) = .error 1 := by
  have hload : loadQueries (.ok ⟨lines, some err⟩)
      = ((lines.map TrimSpace).filter (fun l => decide (l ≠ [])), some err) := by
    unfold loadQueries
    simp only [scanLoop_eq, List.nil_append]
  refine ⟨hload, ?_⟩
  intro flags labels
  unfold startup
  rw [hload]
  split
  · rfl
  · split
    · rfl
    · rfl

/-- C4 as stated fails: after the line `up`, a read error makes `loadQueries`
return the one-element sequence `up` together with the error. -/
theorem loadQueries_keeps_partial :
    loadQueries (.ok ⟨["up".toList], some "read error".toList⟩)
        = (["up".toList], some "read error".toList)
      ∧ (loadQueries (.ok ⟨["up".toList], some "read error".toList⟩)).1 ≠ [] := by
  refine ⟨by decide, by decide⟩

/-- C5: for every entity identifier `e`, substituting `e` into the template
that is exactly `instance="host-0"` yields exactly `instance="e"` (`host-42`
gives `instance="host-42"`), and a template that contains no occurrence of
`instance="host-0"` is left unchanged. -/
theorem substitute_placeholder :
    (∀ e : GoString,
        substitute "instance=\"host-0\"".toList e = "instance=\"".toList ++ e ++ "\"".toList)
      ∧ substitute "instance=\"host-0\"".toList "host-42".toList
          = "instance=\"host-42\"".toList
      ∧ (∀ t e : GoString, ¬ "instance=\"host-0\"".toList <:+: t → substitute t e = t) := by
  have hself : ∀ e : GoString,
      substitute "instance=\"host-0\"".toList e
        = "instance=\"".toList ++ e ++ "\"".toList := by
    intro e
    exact replaceAll_self placeholder (instanceFilter e) (by decide)
  refine ⟨hself, ?_, ?_⟩
  · rw [hself]
    decide
  · intro t e h
    exact replaceAll_absent t placeholder (instanceFilter e) h

/-- C5 on the template `rate(foo[5m])`, which has no placeholder. -/
theorem substitute_placeholder_witness :
    ¬ "instance=\"host-0\"".toList <:+: "rate(foo[5m])".toList
      ∧ substitute "rate(foo[5m])".toList "host-42".toList = "rate(foo[5m])".toList :=
  ⟨by decide, substitute_placeholder.2.2 _ _ (by decide)⟩

/-- C6 (amended): for every entity sequence and template sequence, and every
span other than the least `int64` value, the executor calls each worker of
a round makes are the cross product in entity-outer, template-inner order,
each template substituted with the entity, and every call carries the same
window: end = the tick time, start = end minus the span. -/
theorem round_calls_cross_product (cfg : Config) (now : Int)
    (exec : Nat → Nat → Nat → Option GoError)
    (hlo : minInt64 < cfg.duration) (hhi : cfg.duration ≤ maxInt64) :
    (round cfg now exec).map calls
      = List.replicate cfg.numThreads.toNat
          (crossProductCalls cfg (now - cfg.duration) now) := by
  unfold round
  rw [windowStart_eq_sub now cfg.duration hlo hhi, List.map_map]
  have hconst : (calls ∘ fun w => worker cfg (now - cfg.duration) now (exec w))
      = fun _ => crossProductCalls cfg (now - cfg.duration) now := by
    funext w
    exact calls_worker cfg (now - cfg.duration) now (exec w)
  rw [hconst]
  induction cfg.numThreads.toNat with
  | zero => rfl
  | succ n ih => rw [List.range_succ, List.map_append, ih, List.replicate_succ']; rfl

/-- C6 on the end-to-end scenario (one worker, entities `a`, `b`, template
`{instance="host-0"}`, tick at instant `7200000000000`): exactly the two
calls `{instance="a"}` then `{instance="b"}`, with one window. -/
theorem round_calls_cross_product_witness :
    minInt64 < scenario.duration ∧ scenario.duration ≤ maxInt64
      ∧ (round scenario 7200000000000 (fun _ _ _ => none)).map calls
          = List.replicate scenario.numThreads.toNat
              (crossProductCalls scenario (7200000000000 - scenario.duration) 7200000000000)
      ∧ List.replicate scenario.numThreads.toNat
            (crossProductCalls scenario (7200000000000 - scenario.duration) 7200000000000)
          = [[⟨"http://x".toList, "\x7binstance=\"a\"\x7d".toList, 3600000000000,
                7200000000000, 300000000000, []⟩,
              ⟨"http://x".toList, "\x7binstance=\"b\"\x7d".toList, 3600000000000,
                7200000000000, 300000000000, []⟩]] :=
  ⟨by decide, by decide,
    round_calls_cross_product scenario 7200000000000 (fun _ _ _ => none)
      (by decide) (by decide),
    by decide⟩

/-- C6 as stated fails for the range `-9223372036854775808ns`: the span is
the least `int64`, its negation wraps to itself, and the calls carry
start = end - 2^63 ns where end minus the span is end + 2^63 ns. -/
theorem round_window_least_span :
    parseDuration "-9223372036854775808ns".toList = (minInt64, none)
      ∧ (round leastSpanScenario 0 (fun _ _ _ => none)).map calls
          = [[⟨"http://x".toList, "\x7binstance=\"a\"\x7d".toList, -9223372036854775808,
                0, 300000000000, []⟩,
              ⟨"http://x".toList, "\x7binstance=\"b\"\x7d".toList, -9223372036854775808,
                0, 300000000000, []⟩]]
      ∧ 0 - leastSpanScenario.duration = 9223372036854775808
      ∧ (round leastSpanScenario 0 (fun _ _ _ => none)).map calls
          ≠ List.replicate leastSpanScenario.numThreads.toNat
              (crossProductCalls leastSpanScenario (0 - leastSpanScenario.duration) 0) := by
  refine ⟨by decide, by decide, by decide, by decide⟩

/-- C7: for every worker count `W ≥ 0`, entity count `E` and template count
`T`, one round makes exactly `W * E * T` executor calls: there are `W`
workers and each makes the call of every (entity, template) pair, in the
cross-product order, once. -/
theorem round_attempt_count (cfg : Config) (now : Int)
    (exec : Nat → Nat → Nat → Option GoError) (hW : 0 ≤ cfg.numThreads) :
    ((((round cfg now exec).map (fun t => (calls t).length)).sum : Nat) : Int)
        = cfg.numThreads * cfg.instances.length * cfg.queries.length
      ∧ ((round cfg now exec).length : Int) = cfg.numThreads
      ∧ ∀ t ∈ round cfg now exec,
          calls t = crossProductCalls cfg (windowStart now cfg.duration) now := by
  have hlen : ∀ t ∈ round cfg now exec,
      calls t = crossProductCalls cfg (windowStart now cfg.duration) now := by
    intro t ht
    unfold round at ht
    obtain ⟨w, _, hw⟩ := List.mem_map.mp ht
    rw [← hw]
    exact calls_worker cfg _ now (exec w)
  have hcount : (round cfg now exec).length = cfg.numThreads.toNat := by
    unfold round
    simp
  refine ⟨?_, ?_, hlen⟩
  · have hsum : ((round cfg now exec).map (fun t => (calls t).length)).sum
        = (round cfg now exec).length * (cfg.instances.length * cfg.queries.length) := by
      generalize round cfg now exec = r at hlen
      induction r with
      | nil => simp
      | cons t rest ih =>
        have ht := hlen t (by simp)
        have hrest := ih (fun u hu => hlen u (by simp [hu]))
        simp only [List.map_cons, List.sum_cons, List.length_cons, hrest, ht,
          length_crossProductCalls]
        ring
    rw [hsum, hcount]
    push_cast
    rw [Int.toNat_of_nonneg hW]
    ring
  · rw [hcount, Int.toNat_of_nonneg hW]

/-- C7 on two workers, one entity and one template: two calls. -/
theorem round_attempt_count_witness :
    (0 : Int) ≤ twoWorkers.numThreads
      ∧ ((((round twoWorkers 0 (fun _ _ _ => none)).map (fun t => (calls t).length)).sum
            : Nat) : Int)
          = twoWorkers.numThreads * twoWorkers.instances.length * twoWorkers.queries.length
      ∧ twoWorkers.numThreads * twoWorkers.instances.length * twoWorkers.queries.length = 2 :=
  ⟨by decide, (round_attempt_count twoWorkers 0 (fun _ _ _ => none) (by decide)).1,
    by decide⟩

/-- C8: the executor calls a worker makes do not depend on the executor's
results: under any two assignments of success or failure to the calls the
worker makes the same calls in the same order, all `E * T` of them, so a
failure at one query never prevents the calls after it. -/
theorem worker_calls_independent (cfg : Config) (start stop : Int)
    (exec₁ exec₂ : Nat → Nat → Option GoError) :
    calls (worker cfg start stop exec₁) = calls (worker cfg start stop exec₂)
      ∧ (calls (worker cfg start stop exec₁)).length
          = cfg.instances.length * cfg.queries.length := by
  rw [calls_worker, calls_worker, length_crossProductCalls]
  exact ⟨rfl, rfl⟩

/-- C9 (amended): for a step `d` below one second the `step` parameter is
`d` in seconds rounded to the nearest integer, ties to even: `0` for
`0 ≤ d ≤ 500 ms` and `1` for `500 ms < d < 1 s`. -/
theorem stepParam_subsecond (d : Int) (h0 : 0 ≤ d) (h1 : d < 1000000000) :
    stepParam d = if d ≤ 500000000 then "0".toList else "1".toList := by
  obtain ⟨b, rfl⟩ := Int.eq_ofNat_of_zero_le h0
  have hb : b < 1000000000 := by omega
  rw [stepParam_subsecond_nat b hb]
  by_cases hle : b ≤ 500000000
  · have : (b : Int) ≤ 500000000 := by omega
    rw [if_pos hle, if_pos this]
    rfl
  · have : ¬ (b : Int) ≤ 500000000 := by omega
    rw [if_neg hle, if_neg this]
    rfl

/-- C9 at a step of 250 ms: the parameter is `0`. -/
theorem stepParam_subsecond_witness :
    (0 : Int) ≤ 250000000 ∧ (250000000 : Int) < 1000000000
      ∧ stepParam 250000000
          = if (250000000 : Int) ≤ 500000000 then "0".toList else "1".toList :=
  ⟨by decide, by decide, stepParam_subsecond 250000000 (by decide) (by decide)⟩

set_option maxRecDepth 100000

/-- C9 as stated fails at a step of 600 ms: the parameter sent is `1`, and
a step of 1.5 s is sent as `2`. -/
theorem stepParam_rounds_up :
    stepParam 600000000 = "1".toList ∧ stepParam 600000000 ≠ "0".toList
      ∧ stepParam 1500000000 = "2".toList := by
  refine ⟨by decide, by decide, by decide⟩

/-- C10 (amended): the line a worker logs for a failed query carries the
index of the entity (its position in the entity sequence) together with the
error detail: for every worker count, entity sequence and template sequence,
each worker of a round logs exactly the lines `Instance <i> query failed:
<err>` of its failed (entity `i`, template) pairs, in cross-product order. -/
theorem round_logs_entity_index (cfg : Config) (now : Int)
    (exec : Nat → Nat → Nat → Option GoError) :
    (round cfg now exec).map logs
      = (List.range cfg.numThreads.toNat).map
          (fun w => failureLines cfg.instances.length cfg.queries.length (exec w)) := by
  unfold round
  rw [List.map_map]
  congr 1
  funext w
  exact logs_worker cfg _ now (exec w)

/-- C10 as stated fails with two workers, one entity and a failing
executor: the worker at index 1 logs `Instance 0 query failed: boom`, which
is not the failure line of index 1 for any error detail. -/
theorem round_logs_not_worker_index :
    (round twoWorkers 0 (fun _ _ _ => some "boom".toList)).map logs
        = [["Instance 0 query failed: boom\n".toList],
            ["Instance 0 query failed: boom\n".toList]]
      ∧ ¬ (∀ (w : Nat) (l : GoString),
            l ∈ ((round twoWorkers 0 (fun _ _ _ => some "boom".toList)).map logs).getD w []
              → ∃ err : GoError, l = failureLine w err) := by
  have hlogs : (round twoWorkers 0 (fun _ _ _ => some "boom".toList)).map logs
      = [["Instance 0 query failed: boom\n".toList],
          ["Instance 0 query failed: boom\n".toList]] := by decide
  refine ⟨hlogs, ?_⟩
  intro h
  rw [hlogs] at h
  obtain ⟨err, herr⟩ := h 1 "Instance 0 query failed: boom\n".toList (by decide)
  have hpre : "Instance ".toList ++ formatInt ((1 : Nat) : Int) = "Instance 1".toList := by
    decide
  unfold failureLine at herr
  rw [hpre] at herr
  have := congrArg (fun l => l.get? 9) herr
  simp at this

end QueryBench
